import Mathlib

/-!
Verification of `SparkImportHelper` (src/import_helper.py).

The filesystem is modelled as an ordered tree of named entries; a path is its
list of name components. Python library calls are modelled on the inputs the
program gives them: `os.walk` as a top-down traversal yielding each
directory's files before its sub-directories, `os.path.splitext` as the
last-dot extension of the base name (leading dots never begin an extension),
`os.path.relpath` as dropping the base prefix (every call site passes a path
lying under the base), and `SparkContext.addPyFile` as an external call that
either succeeds or raises, given by a Boolean oracle `regOk`. A run of
`add_deps` is summarised by its trace of observable effects, whether the
temporary directory is still on disk at termination, and how the run ended.
-/

namespace SparkImportHelper

/-- A filesystem entry: a plain file or a directory with an ordered list of
children (the order models the order in which `os.listdir` reports names). -/
inductive Entry where
  | file (name : String) : Entry
  | dir (name : String) (children : List Entry) : Entry

/-- A filesystem path, as its list of name components. -/
abbrev Path := List String

/-- The name of an entry. -/
def Entry.name : Entry → String
  | Entry.file n => n
  | Entry.dir n _ => n

/-- Look up a direct child by name (first match; on a real filesystem names in
a directory are unique). -/
def findEntry (cs : List Entry) (n : String) : Option Entry :=
  cs.find? (fun e => e.name == n)

/-- Resolve a path against the children of the root directory. -/
def resolveIn : Path → List Entry → Option Entry
  | [], _ => none
  | [n], cs => findEntry cs n
  | n :: rest, cs =>
    match findEntry cs n with
    | some (Entry.dir _ ch) => resolveIn rest ch
    | _ => none

/-- `os.path.isdir` on the model. -/
def isdir (fs : List Entry) (p : Path) : Bool :=
  match resolveIn p fs with
  | some (Entry.dir _ _) => true
  | _ => false

/-- Children of the directory at a path (empty when the path is not a
directory). -/
def childrenAt (fs : List Entry) (p : Path) : List Entry :=
  match resolveIn p fs with
  | some (Entry.dir _ cs) => cs
  | _ => []

/-- `os.path.basename` on a component list: the last component. -/
def basename : Path → String
  | [] => ""
  | [n] => n
  | _ :: rest => basename rest

/-- Helper for `splitextExt`: the extension of a base name whose leading dots
have already been removed: everything from the last dot, if any. -/
def extOfTail (cs : List Char) : List Char :=
  let r := cs.reverse
  let afterDot := r.takeWhile (fun c => c != '.')
  if afterDot.length = r.length then []
  else '.' :: afterDot.reverse

/-- `os.path.splitext(fname)[1]` for a base name: the substring from the last
dot, except that the leading dots of the name never begin an extension
(`".py"` has extension `""`, `"a.tar.py"` has extension `".py"`). -/
def splitextExt (fname : String) : String :=
  String.mk (extOfTail (fname.toList.dropWhile (fun c => c == '.')))

/-- The filter `path.splitext(onefile)[1] in exts` of `__find_files`, applied
to a file's base name. -/
def extMatch (exts : List String) (fname : String) : Bool :=
  exts.contains (splitextExt fname)

/-- Direct child files of a directory, as full paths, in listing order
(`os.listdir` filtered by `os.path.isfile`). -/
def directFiles (p : Path) (cs : List Entry) : List Path :=
  cs.filterMap (fun e =>
    match e with
    | Entry.file n => some (p ++ [n])
    | _ => none)

/-- Absolute paths of the directory children of a directory, in listing order
(`os.listdir` filtered by `os.path.isdir`). -/
def directDirs (p : Path) (cs : List Entry) : List Path :=
  cs.filterMap (fun e =>
    match e with
    | Entry.dir n _ => some (p ++ [n])
    | _ => none)

/-- Files contributed by the sub-directories of a directory during `os.walk`
in top-down order: for each directory child in listing order, its own direct
files first, then the files of its nested sub-directories. -/
def walkSubdirs (p : Path) : List Entry → List Path
  | [] => []
  | Entry.file _ :: es => walkSubdirs p es
  | Entry.dir n ch :: es =>
    (directFiles (p ++ [n]) ch ++ walkSubdirs (p ++ [n]) ch) ++ walkSubdirs p es

/-- All file paths under a directory, in `os.walk` top-down order: the
directory's own files first, then those of its sub-directories. -/
def walkDir (p : Path) (cs : List Entry) : List Path :=
  directFiles p cs ++ walkSubdirs p cs

/-- `__find_files`: every file under `basedir` (recursive) or every direct
child file of `basedir` (non-recursive), filtered by extension; `ValueError`
when `basedir` is not a directory. -/
def find_files (fs : List Entry) (basedir : Path) (exts : List String)
    (recursive : Bool) : Except Unit (List Path) :=
  if isdir fs basedir then
    Except.ok ((if recursive then walkDir basedir (childrenAt fs basedir)
                else directFiles basedir (childrenAt fs basedir)).filter
      (fun f => extMatch exts (basename f)))
  else
    Except.error ()

/-- The argument handed to `__add_module`: either a plain file path found at
the top level, or a zip archive, recorded as its base name together with its
entry names in write order. -/
inductive Arg where
  | plain (p : Path) : Arg
  | zipped (zipname : String) (entries : List Path) : Arg
deriving DecidableEq

/-- Observable effects of a run of `add_deps`. -/
inductive Event where
  | register (a : Arg) : Event
  | warnEmpty : Event
  | createTmp : Event
  | removeTmp : Event
deriving DecidableEq

/-- `os.path.relpath(m, basedir)` at the call sites of `__get_sub_module`,
where `m` always lies strictly under `basedir`. -/
def relpath (basedir : Path) (m : Path) : Path :=
  m.drop basedir.length

/-- `__get_sub_module`: find all matching files under `subdir` recursively;
an empty result (Python returns the empty string) when none match, otherwise
the zip archive written into the temporary directory, named after `subdir`'s
base name, each matched file stored under its path relative to `basedir`. -/
def get_sub_module (fs : List Entry) (basedir subdir : Path)
    (exts : List String) : Except Unit (Option Arg) :=
  match find_files fs subdir exts true with
  | Except.error e => Except.error e
  | Except.ok [] => Except.ok none
  | Except.ok ms =>
    Except.ok (some (Arg.zipped (basename subdir ++ ".zip") (ms.map (relpath basedir))))

/-- `__add_module`: when `filepath` is non-empty, invoke
`spark.sparkContext.addPyFile` on it (the oracle `regOk` says whether that
external call succeeds or raises); when empty, log a warning and do
nothing. -/
def add_module (regOk : Arg → Bool) : Option Arg → Except Unit (List Event)
  | some a => if regOk a then Except.ok [Event.register a] else Except.error ()
  | none => Except.ok [Event.warnEmpty]

/-- How a run of `add_deps` ended. -/
inductive Outcome where
  | success : Outcome
  | valueError : Outcome
  | regFailure : Outcome
deriving DecidableEq

/-- The summary of a run of `add_deps`: the trace of observable effects,
whether the temporary directory is still on disk at termination, and how the
run ended. -/
structure RunResult where
  trace : List Event
  tmpdirLive : Bool
  outcome : Outcome
deriving DecidableEq

/-- The first loop of `add_deps`: register each top-level file in order,
stopping at the first registration failure (the raised exception
propagates). The error payload carries the events already produced. -/
def topLoop (regOk : Arg → Bool) : List Path → Except (List Event) (List Event)
  | [] => Except.ok []
  | f :: rest =>
    match add_module regOk (some (Arg.plain f)) with
    | Except.error _ => Except.error []
    | Except.ok evs =>
      match topLoop regOk rest with
      | Except.error tr => Except.error (evs ++ tr)
      | Except.ok tr => Except.ok (evs ++ tr)

/-- Which exception ended a failing run of the sub-module loop. -/
inductive Halt where
  | valueErr : Halt
  | regErr : Halt
deriving DecidableEq

/-- The second loop of `add_deps`: for each top-level sub-directory in
listing order, build its zipped sub-module and register it. Exceptions
propagate together with the events already produced. -/
def subLoop (regOk : Arg → Bool) (fs : List Entry) (basedir : Path)
    (exts : List String) : List Path → Except (List Event × Halt) (List Event)
  | [] => Except.ok []
  | sd :: rest =>
    match get_sub_module fs basedir sd exts with
    | Except.error _ => Except.error ([], Halt.valueErr)
    | Except.ok a =>
      match add_module regOk a with
      | Except.error _ => Except.error ([], Halt.regErr)
      | Except.ok evs =>
        match subLoop regOk fs basedir exts rest with
        | Except.error pr => Except.error (evs ++ pr.1, pr.2)
        | Except.ok tr => Except.ok (evs ++ tr)

/-- `add_deps`: normalize `basedir` (component lists are already in normal
form), register every top-level matched file, create the temporary
directory, package and register each top-level sub-directory, then remove
the temporary directory. An exception propagates out at the point it is
raised, so the removal runs only on the success path. The Python default for
`exts` is `[".py"]`. -/
def add_deps (regOk : Arg → Bool) (fs : List Entry) (basedir : Path)
    (exts : List String) : RunResult :=
  match find_files fs basedir exts false with
  | Except.error _ =>
    { trace := [], tmpdirLive := false, outcome := Outcome.valueError }
  | Except.ok topFiles =>
    match topLoop regOk topFiles with
    | Except.error tr =>
      { trace := tr, tmpdirLive := false, outcome := Outcome.regFailure }
    | Except.ok tr1 =>
      match subLoop regOk fs basedir exts (directDirs basedir (childrenAt fs basedir)) with
      | Except.error pr =>
        { trace := tr1 ++ [Event.createTmp] ++ pr.1, tmpdirLive := true,
          outcome := match pr.2 with
            | Halt.valueErr => Outcome.valueError
            | Halt.regErr => Outcome.regFailure }
      | Except.ok tr2 =>
        { trace := tr1 ++ [Event.createTmp] ++ tr2 ++ [Event.removeTmp],
          tmpdirLive := false, outcome := Outcome.success }

/-- `rest` is the relative path of a file lying somewhere under a directory
whose children are `cs`. -/
inductive IsFileUnder : List Entry → Path → Prop
  | here {cs : List Entry} {n : String} :
      Entry.file n ∈ cs → IsFileUnder cs [n]
  | deeper {cs ch : List Entry} {n : String} {rest : Path} :
      Entry.dir n ch ∈ cs → IsFileUnder ch rest → IsFileUnder cs (n :: rest)

/-- The matching rule as the specification words it: some string of the
filter set is an exact suffix of the file name. Stated for comparison with
the rule the code applies (`extMatch`). -/
def specSuffixMatch (exts : List String) (fname : String) : Bool :=
  exts.any (fun e => List.isSuffixOf e.toList fname.toList)

/-- Membership in the direct files of a directory. -/
theorem mem_directFiles {p : Path} {cs : List Entry} {f : Path} :
    f ∈ directFiles p cs ↔ ∃ n, Entry.file n ∈ cs ∧ f = p ++ [n] := by
  simp only [directFiles, List.mem_filterMap]
  constructor
  · rintro ⟨e, he, hf⟩
    cases e with
    | file n =>
      refine ⟨n, he, ?_⟩
      simpa using hf.symm
    | dir n ch => simp at hf
  · rintro ⟨n, hn, rfl⟩
    exact ⟨Entry.file n, hn, rfl⟩

/-- Membership in the sub-directory part of the walk: exactly the files lying
under some directory child. -/
theorem mem_walkSubdirs {p : Path} {cs : List Entry} {f : Path} :
    f ∈ walkSubdirs p cs ↔
      ∃ n ch rest, Entry.dir n ch ∈ cs ∧ f = p ++ n :: rest ∧ IsFileUnder ch rest := by
  induction p, cs using walkSubdirs.induct with
  | case1 p => simp [walkSubdirs]
  | case2 p m es ih =>
    rw [walkSubdirs, ih]
    constructor
    · rintro ⟨n, ch, rest, hmem, rfl, hu⟩
      exact ⟨n, ch, rest, List.mem_cons_of_mem _ hmem, rfl, hu⟩
    · rintro ⟨n, ch, rest, hmem, rfl, hu⟩
      rcases List.mem_cons.mp hmem with heq | hmem2
      · cases heq
      · exact ⟨n, ch, rest, hmem2, rfl, hu⟩
  | case3 p n ch es ih1 ih2 =>
    rw [walkSubdirs]
    simp only [List.mem_append, mem_directFiles, ih1, ih2]
    constructor
    · rintro ((⟨m, hm, rfl⟩ | ⟨n2, ch2, rest2, h1, rfl, h2⟩) | ⟨n2, ch2, rest2, h1, rfl, h2⟩)
      · exact ⟨n, ch, [m], List.mem_cons_self _ _, by simp, IsFileUnder.here hm⟩
      · exact ⟨n, ch, n2 :: rest2, List.mem_cons_self _ _, by simp,
          IsFileUnder.deeper h1 h2⟩
      · exact ⟨n2, ch2, rest2, List.mem_cons_of_mem _ h1, rfl, h2⟩
    · rintro ⟨n2, ch2, rest2, hmem, rfl, hu⟩
      rcases List.mem_cons.mp hmem with heq | hmem2
      · cases heq
        cases hu with
        | here hm => exact Or.inl (Or.inl ⟨_, hm, by simp⟩)
        | deeper h1 h2 => exact Or.inl (Or.inr ⟨_, _, _, h1, by simp, h2⟩)
      · exact Or.inr ⟨n2, ch2, rest2, hmem2, rfl, hu⟩

/-- Membership in the full walk: exactly the files lying somewhere under the
directory. -/
theorem mem_walkDir {p : Path} {cs : List Entry} {f : Path} :
    f ∈ walkDir p cs ↔ ∃ rest, f = p ++ rest ∧ IsFileUnder cs rest := by
  rw [walkDir]
  simp only [List.mem_append, mem_directFiles, mem_walkSubdirs]
  constructor
  · rintro (⟨n, hn, rfl⟩ | ⟨n, ch, rest, h1, rfl, h2⟩)
    · exact ⟨[n], rfl, IsFileUnder.here hn⟩
    · exact ⟨n :: rest, rfl, IsFileUnder.deeper h1 h2⟩
  · rintro ⟨rest, rfl, hu⟩
    cases hu with
    | here hm => exact Or.inl ⟨_, hm, rfl⟩
    | deeper h1 h2 => exact Or.inr ⟨_, _, _, h1, rfl, h2⟩

/-- A relative file path is never empty. -/
theorem IsFileUnder.ne_nil {cs : List Entry} {rest : Path}
    (h : IsFileUnder cs rest) : rest ≠ [] := by
  cases h <;> simp

/-- The base name of a list with a cons head equals the base name of the
tail when the tail is non-empty. -/
theorem basename_cons (a : String) (r : Path) (h : r ≠ []) :
    basename (a :: r) = basename r := by
  cases r with
  | nil => exact absurd rfl h
  | cons b t => rfl

/-- The base name ignores any leading part of the path. -/
theorem basename_append (l r : Path) (h : r ≠ []) :
    basename (l ++ r) = basename r := by
  induction l with
  | nil => rfl
  | cons a t ih =>
    rw [List.cons_append, basename_cons a (t ++ r) (by simp [h]), ih]

/-- The base name of a path ending in a component is that component. -/
theorem basename_concat (l : Path) (n : String) : basename (l ++ [n]) = n :=
  basename_append l [n] (by simp)

/-- The last element of a list is a member of it. -/
theorem mem_of_getLast?_eq {α : Type u} {l : List α} {x : α}
    (h : l.getLast? = some x) : x ∈ l := by
  induction l with
  | nil => cases h
  | cons b t ih =>
    cases t with
    | nil =>
      simp only [List.getLast?_singleton] at h
      cases h
      exact List.mem_singleton_self _
    | cons c t2 =>
      rw [List.getLast?_cons_cons] at h
      exact List.mem_cons_of_mem _ (ih h)

/-- A successful first loop registers exactly the given files, in order. -/
theorem topLoop_ok {regOk : Arg → Bool} {l : List Path} {tr : List Event}
    (h : topLoop regOk l = Except.ok tr) :
    tr = l.map (fun f => Event.register (Arg.plain f)) := by
  induction l generalizing tr with
  | nil =>
    simp only [topLoop] at h
    cases h
    rfl
  | cons f rest ih =>
    simp only [topLoop] at h
    split at h
    · cases h
    · rename_i evs hevs
      split at h
      · cases h
      · rename_i tr2 htl
        cases h
        simp only [add_module] at hevs
        split at hevs
        · cases hevs
          rw [ih htl]
          rfl
        · cases hevs

/-- The events a failing first loop leaves behind are all plain-file
registrations. -/
theorem topLoop_error_events {regOk : Arg → Bool} {l : List Path}
    {tr : List Event} (h : topLoop regOk l = Except.error tr) :
    ∀ e ∈ tr, ∃ q, e = Event.register (Arg.plain q) := by
  induction l generalizing tr with
  | nil => simp only [topLoop] at h; cases h
  | cons f rest ih =>
    simp only [topLoop] at h
    split at h
    · cases h
      intro e he
      cases he
    · rename_i evs hevs
      split at h
      · rename_i tr2 htl
        cases h
        simp only [add_module] at hevs
        split at hevs
        · cases hevs
          intro e he
          rcases List.mem_append.mp he with he1 | he2
          · rcases List.mem_singleton.mp he1 with rfl
            exact ⟨f, rfl⟩
          · exact ih htl e he2
        · cases hevs
      · cases h

/-- A non-empty packaging result is always a zip archive. -/
theorem get_sub_module_some {fs : List Entry} {basedir sd : Path}
    {exts : List String} {a : Arg}
    (h : get_sub_module fs basedir sd exts = Except.ok (some a)) :
    ∃ zn es2, a = Arg.zipped zn es2 := by
  simp only [get_sub_module] at h
  split at h
  · cases h
  · simp at h
  · rename_i ms m tail heq
    rw [Except.ok.injEq, Option.some.injEq] at h
    exact ⟨_, _, h.symm⟩

/-- The events of one `__add_module` call on a packaging result are a warning
or an archive registration. -/
theorem add_module_sub_events {regOk : Arg → Bool} {fs : List Entry}
    {basedir sd : Path} {exts : List String} {a : Option Arg} {evs : List Event}
    (hg : get_sub_module fs basedir sd exts = Except.ok a)
    (hm : add_module regOk a = Except.ok evs) :
    ∀ e ∈ evs, e = Event.warnEmpty ∨ ∃ zn es2, e = Event.register (Arg.zipped zn es2) := by
  cases a with
  | none =>
    simp only [add_module] at hm
    cases hm
    intro e he
    rcases List.mem_singleton.mp he with rfl
    exact Or.inl rfl
  | some a2 =>
    simp only [add_module] at hm
    split at hm
    · cases hm
      intro e he
      rcases List.mem_singleton.mp he with rfl
      rcases get_sub_module_some hg with ⟨zn, es2, rfl⟩
      exact Or.inr ⟨zn, es2, rfl⟩
    · cases hm

/-- The events of a successful sub-module loop are warnings and archive
registrations only. -/
theorem subLoop_ok_events {regOk : Arg → Bool} {fs : List Entry}
    {basedir : Path} {exts : List String} {l : List Path} {tr : List Event}
    (h : subLoop regOk fs basedir exts l = Except.ok tr) :
    ∀ e ∈ tr, e = Event.warnEmpty ∨ ∃ zn es2, e = Event.register (Arg.zipped zn es2) := by
  induction l generalizing tr with
  | nil =>
    simp only [subLoop] at h
    cases h
    intro e he
    cases he
  | cons sd rest ih =>
    simp only [subLoop] at h
    split at h
    · cases h
    · rename_i a hgsm
      split at h
      · cases h
      · rename_i evs hevs
        split at h
        · cases h
        · rename_i tr2 hsl
          cases h
          intro e he
          rcases List.mem_append.mp he with he1 | he2
          · exact add_module_sub_events hgsm hevs e he1
          · exact ih hsl e he2

/-- The events a failing sub-module loop leaves behind are warnings and
archive registrations only. -/
theorem subLoop_error_events {regOk : Arg → Bool} {fs : List Entry}
    {basedir : Path} {exts : List String} {l : List Path}
    {pr : List Event × Halt}
    (h : subLoop regOk fs basedir exts l = Except.error pr) :
    ∀ e ∈ pr.1, e = Event.warnEmpty ∨ ∃ zn es2, e = Event.register (Arg.zipped zn es2) := by
  induction l generalizing pr with
  | nil => simp only [subLoop] at h; cases h
  | cons sd rest ih =>
    simp only [subLoop] at h
    split at h
    · cases h
      intro e he
      cases he
    · rename_i a hgsm
      split at h
      · cases h
        intro e he
        cases he
      · rename_i evs hevs
        split at h
        · rename_i pr2 hsl
          cases h
          intro e he
          rcases List.mem_append.mp he with he1 | he2
          · exact add_module_sub_events hgsm hevs e he1
          · exact ih hsl e he2
        · cases h

/-- C1: packaging a sub-directory of the base directory that holds N ≥ 1
matching files (found recursively) produces a zip archive named after the
sub-directory with exactly N entries, the i-th entry being the i-th matched
file's path relative to the base directory (not to the sub-directory):
prepending the base directory to an entry name gives back the matched file's
absolute path. -/
theorem c1_zip_entries (fs : List Entry) (basedir : Path) (d : String)
    (exts : List String) (ms : List Path)
    (h1 : find_files fs (basedir ++ [d]) exts true = Except.ok ms)
    (h2 : ms ≠ []) :
    get_sub_module fs basedir (basedir ++ [d]) exts =
      Except.ok (some (Arg.zipped (d ++ ".zip") (ms.map (relpath basedir)))) ∧
    (ms.map (relpath basedir)).length = ms.length ∧
    ∀ m ∈ ms, basedir ++ relpath basedir m = m := by
  refine ⟨?_, List.length_map _ _, ?_⟩
  · simp only [get_sub_module, h1]
    cases ms with
    | nil => exact absurd rfl h2
    | cons m tail => rw [basename_concat]
  · intro m hm
    simp only [find_files] at h1
    split at h1
    · rw [Except.ok.injEq] at h1
      rw [← h1] at hm
      simp only [if_true] at hm
      have hw : m ∈ walkDir (basedir ++ [d]) (childrenAt fs (basedir ++ [d])) :=
        (List.mem_filter.mp hm).1
      rcases mem_walkDir.mp hw with ⟨rest, rfl, hu⟩
      simp only [relpath, List.append_assoc, List.singleton_append, List.drop_left]
    · cases h1

/-- C2: on a base directory holding `main.py`, `utils.py` and a sub-directory
`pkg/` with `pkg/mod.py` and `pkg/sub/deep.py`, `add_deps` with the default
extension set performs exactly two direct file registrations (`main.py`,
`utils.py`) and then one archive registration named `pkg.zip` whose entries
are exactly `pkg/mod.py` and `pkg/sub/deep.py`; the full effect trace also
records the creation and removal of the temporary directory around the
archive step. -/
theorem c2_example_run :
    add_deps (fun _ => true)
        [Entry.dir "base" [Entry.file "main.py", Entry.file "utils.py",
          Entry.dir "pkg" [Entry.file "mod.py",
            Entry.dir "sub" [Entry.file "deep.py"]]]]
        ["base"] [".py"] =
      { trace := [Event.register (Arg.plain ["base", "main.py"]),
          Event.register (Arg.plain ["base", "utils.py"]),
          Event.createTmp,
          Event.register (Arg.zipped "pkg.zip"
            [["pkg", "mod.py"], ["pkg", "sub", "deep.py"]]),
          Event.removeTmp],
        tmpdirLive := false, outcome := Outcome.success } := by
  simp [add_deps, find_files, isdir, resolveIn, findEntry, childrenAt, Entry.name,
    directFiles, directDirs, walkDir, walkSubdirs, basename, extMatch, splitextExt,
    extOfTail, relpath, get_sub_module, add_module, topLoop, subLoop, List.find?]

/-- C3: non-recursive `find_files` on a directory returns exactly the
direct-child files whose extension matches, and every returned path is a
direct child (one component longer than the root), so nothing from a nested
sub-directory is returned. -/
theorem c3_nonrecursive_exact (fs : List Entry) (basedir : Path)
    (exts : List String) (nm : String) (cs : List Entry) (r : List Path)
    (h : resolveIn basedir fs = some (Entry.dir nm cs))
    (hr : find_files fs basedir exts false = Except.ok r) :
    (∀ f, f ∈ r ↔
      ∃ n, Entry.file n ∈ cs ∧ f = basedir ++ [n] ∧ extMatch exts n = true) ∧
    ∀ f ∈ r, f.length = basedir.length + 1 := by
  have hd : isdir fs basedir = true := by simp only [isdir, h]
  have hc : childrenAt fs basedir = cs := by simp only [childrenAt, h]
  rw [find_files, if_pos hd, hc] at hr
  simp only [Bool.false_eq_true, if_false, Except.ok.injEq] at hr
  subst hr
  constructor
  · intro f
    rw [List.mem_filter, mem_directFiles]
    constructor
    · rintro ⟨⟨n, hn, rfl⟩, hp⟩
      rw [basename_concat] at hp
      exact ⟨n, hn, rfl, hp⟩
    · rintro ⟨n, hn, rfl, hp⟩
      exact ⟨⟨n, hn, rfl⟩, by rwa [basename_concat]⟩
  · intro f hf
    rcases mem_directFiles.mp (List.mem_filter.mp hf).1 with ⟨n, hn, rfl⟩
    simp

/-- C4: recursive `find_files` on a directory returns a path exactly when it
is the root followed by the relative path of a file lying anywhere under the
tree (arbitrarily nested) whose extension matches; in particular every such
matching file is returned. -/
theorem c4_recursive_complete (fs : List Entry) (basedir : Path)
    (exts : List String) (nm : String) (cs : List Entry) (r : List Path)
    (h : resolveIn basedir fs = some (Entry.dir nm cs))
    (hr : find_files fs basedir exts true = Except.ok r) :
    ∀ rest, basedir ++ rest ∈ r ↔
      IsFileUnder cs rest ∧ extMatch exts (basename rest) = true := by
  have hd : isdir fs basedir = true := by simp only [isdir, h]
  have hc : childrenAt fs basedir = cs := by simp only [childrenAt, h]
  rw [find_files, if_pos hd, hc] at hr
  simp only [if_true, Except.ok.injEq] at hr
  subst hr
  intro rest
  rw [List.mem_filter, mem_walkDir]
  constructor
  · rintro ⟨⟨rest2, heq, hu⟩, hp⟩
    have hre : rest = rest2 := List.append_cancel_left heq
    subst hre
    rw [basename_append _ _ hu.ne_nil] at hp
    exact ⟨hu, hp⟩
  · rintro ⟨hu, hp⟩
    exact ⟨⟨rest, rfl, hu⟩, by rwa [basename_append _ _ hu.ne_nil]⟩

/-- C5: calling `add_deps` on a path that does not exist or is not a
directory ends with the invalid-argument failure (`ValueError`) raised by
`__find_files`, with an empty effect trace: no registration was performed and
the temporary directory was never created. -/
theorem c5_invalid_basedir (regOk : Arg → Bool) (fs : List Entry)
    (basedir : Path) (exts : List String) (h : isdir fs basedir = false) :
    add_deps regOk fs basedir exts =
      { trace := [], tmpdirLive := false, outcome := Outcome.valueError } := by
  simp [add_deps, find_files, h]

/-- C6: packaging a sub-directory with zero matching files returns the empty
result (no archive is created), and handing that empty result to
`__add_module` produces only a warning event: no registration and no
exception. -/
theorem c6_empty_submodule (regOk : Arg → Bool) (fs : List Entry)
    (basedir subdir : Path) (exts : List String)
    (h : find_files fs subdir exts true = Except.ok []) :
    get_sub_module fs basedir subdir exts = Except.ok none ∧
    add_module regOk none = Except.ok [Event.warnEmpty] := by
  constructor
  · simp [get_sub_module, h]
  · rfl

/-- C7 counterexample: with filter set `{".tar.gz"}`, the name `foo.tar.gz`
has a filter string as an exact suffix, yet recursive `find_files` on a
directory holding exactly that file returns nothing, because the code matches
`os.path.splitext(...)[1]` (here `".gz"`) against the set rather than testing
suffixes. -/
theorem c7_suffix_cex :
    specSuffixMatch [".tar.gz"] "foo.tar.gz" = true ∧
    find_files [Entry.dir "d" [Entry.file "foo.tar.gz"]] ["d"] [".tar.gz"]
        true = Except.ok [] := by
  constructor
  · rfl
  · simp [find_files, isdir, resolveIn, findEntry, childrenAt, Entry.name,
      directFiles, walkDir, walkSubdirs, basename, extMatch, splitextExt,
      extOfTail, List.find?]

/-- C7 amended: a file is matched exactly when its `splitext` extension (the
substring from the last dot of its base name, empty when only leading dots
occur) is an element of the filter set: a single-file directory search
returns the file iff that extension is in the set. -/
theorem c7_splitext_matching (n : String) (exts : List String) :
    find_files [Entry.dir "d" [Entry.file n]] ["d"] exts true =
      Except.ok (if splitextExt n ∈ exts then [["d", n]] else []) := by
  have hd : isdir [Entry.dir "d" [Entry.file n]] ["d"] = true := rfl
  have hc : childrenAt [Entry.dir "d" [Entry.file n]] ["d"] = [Entry.file n] := rfl
  rw [find_files, if_pos hd, hc]
  simp only [if_true, walkDir, directFiles, walkSubdirs, List.filterMap_cons,
    List.filterMap_nil, List.append_nil, List.filter_cons, List.filter_nil,
    Except.ok.injEq]
  have hb : basename (["d"] ++ [n]) = n := basename_concat ["d"] n
  rw [hb]
  by_cases hm : splitextExt n ∈ exts
  · rw [if_pos hm]
    have : extMatch exts n = true := by
      simp only [extMatch, List.contains, List.elem_iff]
      exact hm
    rw [this, if_pos rfl]
    simp
  · rw [if_neg hm]
    have : extMatch exts n = false := by
      simp only [extMatch, List.contains]
      rw [Bool.eq_false_iff]
      intro hcon
      exact hm (List.elem_iff.mp hcon)
    rw [this]
    simp

/-- C8: the temporary directory is on disk at termination exactly when it was
created and the run did not succeed — so every successful run removes it at
the very end (the last effect is the removal), while a run in which packaging
or registration raises after the workspace was created terminates with the
directory still on disk. -/
theorem c8_tmpdir_lifecycle (regOk : Arg → Bool) (fs : List Entry)
    (basedir : Path) (exts : List String) :
    ((add_deps regOk fs basedir exts).tmpdirLive = true ↔
      Event.createTmp ∈ (add_deps regOk fs basedir exts).trace ∧
        (add_deps regOk fs basedir exts).outcome ≠ Outcome.success) ∧
    ((add_deps regOk fs basedir exts).outcome = Outcome.success ↔
      (add_deps regOk fs basedir exts).trace.getLast? = some Event.removeTmp) := by
  rcases hff : find_files fs basedir exts false with u | topFiles
  · simp [add_deps, hff]
  · rcases htl : topLoop regOk topFiles with tr | tr1
    · have hev := topLoop_error_events htl
      have hc : Event.createTmp ∉ tr := by
        intro hmem
        rcases hev _ hmem with ⟨q, hq⟩
        cases hq
      have hgl : ¬ tr.getLast? = some Event.removeTmp := by
        intro hg
        rcases hev _ (mem_of_getLast?_eq hg) with ⟨q, hq⟩
        cases hq
      simp [add_deps, hff, htl, hc, hgl]
    · have htr1 := topLoop_ok htl
      rcases hsl : subLoop regOk fs basedir exts
          (directDirs basedir (childrenAt fs basedir)) with pr | tr2
      · have hev := subLoop_error_events hsl
        have hgl : ¬ (tr1 ++ [Event.createTmp] ++ pr.1).getLast? =
            some Event.removeTmp := by
          intro hg
          have hmem := mem_of_getLast?_eq hg
          rcases List.mem_append.mp hmem with h1 | h2
          · rcases List.mem_append.mp h1 with h3 | h4
            · rw [htr1] at h3
              rcases List.mem_map.mp h3 with ⟨q, hq1, hq2⟩
              cases hq2
            · rcases List.mem_singleton.mp h4 with h5
              cases h5
          · rcases hev _ h2 with h3 | ⟨zn, es2, h3⟩ <;> cases h3
        cases pr with
        | mk tr2 ha =>
          cases ha <;>
            simp_all [add_deps, hff, htl, hsl]
      · have hend : ∀ l : List Event,
            (Event.createTmp :: (l ++ [Event.removeTmp])).getLast? =
              some Event.removeTmp := by
          intro l
          rw [show Event.createTmp :: (l ++ [Event.removeTmp]) =
              (Event.createTmp :: l) ++ [Event.removeTmp] from rfl]
          exact List.getLast?_concat _
        simp [add_deps, hff, htl, hsl, hend]

/-- C9: in every successful run the trace is exactly the registrations of the
top-level matched files in order, then the creation of the temporary
workspace, then the events of the sub-directory loop — each of which is a
warning or an archive registration, never a plain-file registration — and
finally the workspace removal; in particular no archive registration precedes
any top-level file registration. -/
theorem c9_registration_order (regOk : Arg → Bool) (fs : List Entry)
    (basedir : Path) (exts : List String) (tfs : List Path)
    (h1 : find_files fs basedir exts false = Except.ok tfs)
    (h2 : (add_deps regOk fs basedir exts).outcome = Outcome.success) :
    ∃ tr2, (add_deps regOk fs basedir exts).trace =
        tfs.map (fun f => Event.register (Arg.plain f)) ++ [Event.createTmp] ++
          tr2 ++ [Event.removeTmp] ∧
      ∀ e ∈ tr2, e = Event.warnEmpty ∨
        ∃ zn es2, e = Event.register (Arg.zipped zn es2) := by
  rcases htl : topLoop regOk tfs with tr | tr1
  · simp [add_deps, h1, htl] at h2
  · rcases hsl : subLoop regOk fs basedir exts
        (directDirs basedir (childrenAt fs basedir)) with pr | tr2
    · rcases pr with ⟨tr2, ha⟩
      cases ha <;> simp [add_deps, h1, htl, hsl] at h2
    · refine ⟨tr2, ?_, subLoop_ok_events hsl⟩
      rw [topLoop_ok htl] at *
      simp [add_deps, h1, htl, hsl]

/-- C10: every file returned by the non-recursive search is also returned by
the recursive search on the same directory and filter set. -/
theorem c10_nonrecursive_subset (fs : List Entry) (basedir : Path)
    (exts : List String) (r1 r2 : List Path) (f : Path)
    (h1 : find_files fs basedir exts false = Except.ok r1)
    (h2 : find_files fs basedir exts true = Except.ok r2)
    (h3 : f ∈ r1) : f ∈ r2 := by
  rw [find_files] at h1 h2
  by_cases hd : isdir fs basedir = true
  · rw [if_pos hd] at h1 h2
    rw [Except.ok.injEq] at h1 h2
    subst h1
    subst h2
    simp only [if_true, Bool.false_eq_true, if_false] at h3 ⊢
    rw [walkDir, List.filter_append]
    exact List.mem_append_left _ h3
  · rw [if_neg hd] at h1
    cases h1

/-- Concrete instance of `c1_zip_entries`: a base directory `b` whose
sub-directory `pkg` holds one matching file. -/
theorem c1_zip_entries_w :
    get_sub_module [Entry.dir "b" [Entry.dir "pkg" [Entry.file "m.py"]]] ["b"]
        (["b"] ++ ["pkg"]) [".py"] =
      Except.ok (some (Arg.zipped ("pkg" ++ ".zip")
        (([["b", "pkg", "m.py"]] : List Path).map (relpath ["b"])))) ∧
    (([["b", "pkg", "m.py"]] : List Path).map (relpath ["b"])).length =
      ([["b", "pkg", "m.py"]] : List Path).length ∧
    ∀ m ∈ ([["b", "pkg", "m.py"]] : List Path), ["b"] ++ relpath ["b"] m = m :=
  c1_zip_entries [Entry.dir "b" [Entry.dir "pkg" [Entry.file "m.py"]]] ["b"]
    "pkg" [".py"] [["b", "pkg", "m.py"]]
    (by simp [find_files, isdir, resolveIn, findEntry, childrenAt, Entry.name,
      directFiles, walkDir, walkSubdirs, basename, extMatch, splitextExt,
      extOfTail, List.find?])
    (by simp)

/-- Concrete instance of `c3_nonrecursive_exact`: the direct child `a.py` is
returned; nothing from the nested directory `s` is. -/
theorem c3_nonrecursive_exact_w :
    ["b", "a.py"] ∈ ([["b", "a.py"]] : List Path) ↔
      ∃ n, Entry.file n ∈
          [Entry.file "a.py", Entry.dir "s" [Entry.file "n.py"]] ∧
        ["b", "a.py"] = ["b"] ++ [n] ∧ extMatch [".py"] n = true :=
  (c3_nonrecursive_exact
    [Entry.dir "b" [Entry.file "a.py", Entry.dir "s" [Entry.file "n.py"]]]
    ["b"] [".py"] "b" [Entry.file "a.py", Entry.dir "s" [Entry.file "n.py"]]
    [["b", "a.py"]] (by rfl) (by rfl)).1 ["b", "a.py"]

/-- Concrete instance of `c4_recursive_complete`: the nested file `s/n.py` is
found by the recursive search. -/
theorem c4_recursive_complete_w :
    ["b"] ++ ["s", "n.py"] ∈ ([["b", "a.py"], ["b", "s", "n.py"]] : List Path) ↔
      IsFileUnder [Entry.file "a.py", Entry.dir "s" [Entry.file "n.py"]]
          ["s", "n.py"] ∧
        extMatch [".py"] (basename ["s", "n.py"]) = true :=
  c4_recursive_complete
    [Entry.dir "b" [Entry.file "a.py", Entry.dir "s" [Entry.file "n.py"]]]
    ["b"] [".py"] "b" [Entry.file "a.py", Entry.dir "s" [Entry.file "n.py"]]
    [["b", "a.py"], ["b", "s", "n.py"]] (by rfl)
    (by simp [find_files, isdir, resolveIn, findEntry, childrenAt, Entry.name,
      directFiles, walkDir, walkSubdirs, basename, extMatch, splitextExt,
      extOfTail, List.find?])
    ["s", "n.py"]

/-- Concrete instance of `c5_invalid_basedir`: a path that does not exist. -/
theorem c5_invalid_basedir_w :
    add_deps (fun _ => true) [] ["nope"] [".py"] =
      { trace := [], tmpdirLive := false, outcome := Outcome.valueError } :=
  c5_invalid_basedir (fun _ => true) [] ["nope"] [".py"] (by rfl)

/-- Concrete instance of `c6_empty_submodule`: an empty sub-directory. -/
theorem c6_empty_submodule_w :
    get_sub_module [Entry.dir "b" [Entry.dir "e" []]] ["b"] ["b", "e"]
        [".py"] = Except.ok none ∧
    add_module (fun _ => true) none = Except.ok [Event.warnEmpty] :=
  c6_empty_submodule (fun _ => true) [Entry.dir "b" [Entry.dir "e" []]] ["b"]
    ["b", "e"] [".py"]
    (by simp [find_files, isdir, resolveIn, findEntry, childrenAt, Entry.name,
      directFiles, walkDir, walkSubdirs, basename, extMatch, splitextExt,
      extOfTail, List.find?])

/-- Concrete instance of `c9_registration_order` on the example tree. -/
theorem c9_registration_order_w :
    ∃ tr2, (add_deps (fun _ => true)
        [Entry.dir "base" [Entry.file "main.py", Entry.file "utils.py",
          Entry.dir "pkg" [Entry.file "mod.py",
            Entry.dir "sub" [Entry.file "deep.py"]]]]
        ["base"] [".py"]).trace =
        ([["base", "main.py"], ["base", "utils.py"]] : List Path).map
            (fun f => Event.register (Arg.plain f)) ++ [Event.createTmp] ++
          tr2 ++ [Event.removeTmp] ∧
      ∀ e ∈ tr2, e = Event.warnEmpty ∨
        ∃ zn es2, e = Event.register (Arg.zipped zn es2) :=
  c9_registration_order (fun _ => true)
    [Entry.dir "base" [Entry.file "main.py", Entry.file "utils.py",
      Entry.dir "pkg" [Entry.file "mod.py",
        Entry.dir "sub" [Entry.file "deep.py"]]]]
    ["base"] [".py"] [["base", "main.py"], ["base", "utils.py"]]
    (by rfl)
    (by simp [add_deps, find_files, isdir, resolveIn, findEntry, childrenAt,
      Entry.name, directFiles, directDirs, walkDir, walkSubdirs, basename,
      extMatch, splitextExt, extOfTail, relpath, get_sub_module, add_module,
      topLoop, subLoop, List.find?])

/-- Concrete instance of `c10_nonrecursive_subset`: the direct child found
non-recursively also appears in the recursive result. -/
theorem c10_nonrecursive_subset_w :
    ["b", "a.py"] ∈ ([["b", "a.py"], ["b", "s", "n.py"]] : List Path) :=
  c10_nonrecursive_subset
    [Entry.dir "b" [Entry.file "a.py", Entry.dir "s" [Entry.file "n.py"]]]
    ["b"] [".py"] [["b", "a.py"]] [["b", "a.py"], ["b", "s", "n.py"]]
    ["b", "a.py"]
    (by rfl)
    (by simp [find_files, isdir, resolveIn, findEntry, childrenAt, Entry.name,
      directFiles, walkDir, walkSubdirs, basename, extMatch, splitextExt,
      extOfTail, List.find?])
    (by simp)

end SparkImportHelper
